import Mathlib

/-!
Verification development for the document merging application in src/app.py.

The embedding covers:
- the natural ordering used at line 121, natsorted(files, key = name, alg = ns.IGNORECASE):
  the natsort key splits a name into maximal digit and non-digit runs, converts digit runs
  to arbitrary-precision integers and lowercases non-digit runs (IGNORECASE), and Python
  sorted is a stable sort by that key; a stable sort by a total preorder has a unique
  result, embedded here as insertion sort;
- merge_word_documents_from_streams (lines 13 to 91): the per-file loop with its
  page-break insertion, the accumulation of the processed count and the failed list, and
  the final save. Calls into the python-docx library are modeled by their documented
  effects: Document(stream) parses a package into a body node sequence plus its
  relationship table and media parts (or raises, modeled as Option), add_page_break
  appends one explicit page-break node to the merged body, appending an element of a
  sub-document body appends that node verbatim, and Document() is the blank template,
  whose package carries a fixed relationship table and no media. The loop copies only
  body nodes; it never touches the relationship tables, styles, numbering or media of
  the sub-documents, which the embedding makes explicit.
-/

namespace WordMerge

/-! ## Natural sort comparator -/

/-- Three-way comparison of natural numbers, used for digit runs and characters. -/
def natCmp (m n : Nat) : Ordering :=
  if m < n then .lt else if n < m then .gt else .eq

/-- Three-way comparison of characters by code point, as Python compares characters. -/
def charCmp (c d : Char) : Ordering :=
  natCmp c.toNat d.toNat

/-- Lexicographic three-way comparison of lists, given a comparison of elements.
Python compares tuples and strings this way. -/
def lexCmp (cmp : α → α → Ordering) : List α → List α → Ordering
  | [], [] => .eq
  | [], _ :: _ => .lt
  | _ :: _, [] => .gt
  | a :: as, b :: bs =>
    match cmp a b with
    | .eq => lexCmp cmp as bs
    | o => o

/-- Three-way comparison of character lists, as Python compares strings. -/
def strCmp (a b : List Char) : Ordering :=
  lexCmp charCmp a b

/-- One component of a natsort key: a lowercased non-digit run, or the integer value
of a digit run. -/
inductive Chunk where
  | str : List Char → Chunk
  | num : Nat → Chunk
deriving DecidableEq

/-- Comparison of key components. Components at equal positions of two natsort keys
always have the same constructor (keys alternate starting with a string component),
so the cross cases are unreachable; they are oriented so that a number sorts before
a string, matching how natsort pads keys. -/
def chunkCmp : Chunk → Chunk → Ordering
  | .str a, .str b => strCmp a b
  | .num i, .num j => natCmp i j
  | .str _, .num _ => .gt
  | .num _, .str _ => .lt

/-- Lexicographic comparison of natsort keys, as Python compares the key tuples. -/
def keyCmp (a b : List Chunk) : Ordering :=
  lexCmp chunkCmp a b

/-- Integer value of a digit run, as Python int() of the run. -/
def digitsVal (r : List Char) : Nat :=
  r.foldl (fun acc c => acc * 10 + (c.toNat - 48)) 0

/-- Key component of one run: digit runs become integers, other runs are lowercased
(alg = ns.IGNORECASE). -/
def chunkOfRun (r : List Char) : Chunk :=
  match r with
  | [] => .str []
  | c :: _ => if c.isDigit then .num (digitsVal r) else .str (r.map Char.toLower)

/-- Split a character list into its maximal runs of digit and of non-digit
characters, in order. -/
def splitRuns (s : List Char) : List (List Char) :=
  s.foldr
    (fun c runs =>
      match runs with
      | (d :: run) :: rest =>
        if c.isDigit == d.isDigit then (c :: d :: run) :: rest
        else [c] :: (d :: run) :: rest
      | _ => [c] :: runs)
    []

/-- The natsort key of a name under alg = ns.IGNORECASE: the runs converted to key
components, with an empty string component in front when the name starts with a digit
run, so that keys always alternate starting with a string component. -/
def natKey (s : String) : List Chunk :=
  let ks := (splitRuns s.data).map chunkOfRun
  match ks with
  | .num _ :: _ => .str [] :: ks
  | _ => ks

/-- The comparison the code sorts by: key of a at most key of b. There is no
tie-break on the original name; names with equal keys are left to the stability
of the sort. -/
def natLe (a b : String) : Bool :=
  match keyCmp (natKey a) (natKey b) with
  | .gt => false
  | _ => true

/-- natLe as a decidable relation, for the sort and the order lemmas. -/
def natLE (a b : String) : Prop := natLe a b = true

instance : DecidableRel natLE :=
  fun a b => inferInstanceAs (Decidable (natLe a b = true))

/-- The natural sort of the code, line 121: Python sorted is stable, so its result
is that of a stable insertion sort by natLE. -/
def natsorted (l : List String) : List String :=
  l.insertionSort natLE

/-- Comparator following the words of the spec (section 4.1): compare the runs, and
when all runs compare equal fall back to exact byte-wise comparison of the names.
Stated only to be compared with the comparison the code actually sorts by. -/
def specNatLe (a b : String) : Bool :=
  match keyCmp (natKey a) (natKey b) with
  | .lt => true
  | .gt => false
  | .eq =>
    match strCmp a.data b.data with
    | .gt => false
    | _ => true

/-- specNatLe as a decidable relation. -/
def specNatLE (a b : String) : Prop := specNatLe a b = true

instance : DecidableRel specNatLE :=
  fun a b => inferInstanceAs (Decidable (specNatLe a b = true))

/-- Sorting by the comparator of the words of the spec. -/
def specNatSorted (l : List String) : List String :=
  l.insertionSort specNatLE

/-! ## The merge function -/

/-- A top-level node of a document body, at the granularity the merge loop handles:
the explicit page-break node added by add_page_break, an ordinary content node (tagged
with an identifier and the relationship ids it references), or a section-terminator
node (tagged with an identifier of its source). -/
inductive Element where
  | pageBreak : Element
  | content : Nat → List String → Element
  | sectPr : Nat → Element
deriving DecidableEq

/-- The in-memory model of one successfully parsed package: its body node sequence,
its relationship table (id to target), and its media parts (name to bytes). -/
structure ParsedDoc where
  body : List Element
  rels : List (String × String)
  media : List (String × List Nat)
deriving DecidableEq

/-- One uploaded file: its name, and the parse of its bytes; parsed = none models
Document(stream) raising on corrupt input. -/
structure UploadedFile where
  name : String
  parsed : Option ParsedDoc
deriving DecidableEq

/-- The loop state of merge_word_documents_from_streams: the merged body so far,
files_processed_count, failed_files, and the first_file flag. -/
structure MergeState where
  body : List Element
  count : Nat
  failed : List String
  firstFile : Bool
deriving DecidableEq

/-- Lines 50 to 58: except for the first file, add a page break before appending,
guarded by the test that the CURRENT filename is not in failed_files (the names of
previously failed files). -/
def addBreak (st : MergeState) (name : String) : MergeState :=
  if st.firstFile then { st with firstFile := false }
  else if st.failed.contains name then st
  else { st with body := st.body ++ [Element.pageBreak] }

/-- One iteration of the loop, lines 45 to 75: the page-break step, then parse the
file and either append every node of its body verbatim and increment the count, or
append its name to failed_files. -/
def processFile (st : MergeState) (f : UploadedFile) : MergeState :=
  let st1 := addBreak st f.name
  match f.parsed with
  | some d => { st1 with body := st1.body ++ d.body, count := st1.count + 1 }
  | none => { st1 with failed := st1.failed ++ [f.name] }

/-- The saved package: a body, a relationship table and media parts. -/
structure MergedPackage where
  body : List Element
  rels : List (String × String)
  media : List (String × List Nat)
deriving DecidableEq

/-- The document-part relationship table of the blank python-docx template that
Document() starts from: fixed links to its own support parts, independent of the
inputs. The merge loop never adds to it. -/
def templateRels : List (String × String) :=
  [("rId1", "styles.xml"), ("rId2", "settings.xml"), ("rId3", "fontTable.xml")]

/-- Line 85, merged_document.save: the saved package holds the merged body, the
relationship table of the blank template, and no media, because the loop copied
only body nodes out of the sub-documents. -/
def save (body : List Element) : MergedPackage :=
  { body := body, rels := templateRels, media := [] }

/-- The triple returned by merge_word_documents_from_streams. -/
structure MergeResult where
  output : Option MergedPackage
  count : Nat
  failed : List String
deriving DecidableEq

/-- merge_word_documents_from_streams, lines 13 to 91: empty input returns
(None, 0, []); otherwise run the loop over the files, return (None, 0, failed)
when no file was processed, else the saved package with count and failed list. -/
def merge_word_documents_from_streams (files : List UploadedFile) : MergeResult :=
  if files.isEmpty then { output := none, count := 0, failed := [] }
  else
    let st := files.foldl processFile { body := [], count := 0, failed := [], firstFile := true }
    if st.count = 0 then { output := none, count := 0, failed := st.failed }
    else { output := some (save st.body), count := st.count, failed := st.failed }

/-! ## Observation helpers -/

/-- The relationship ids referenced from a body. -/
def bodyRefs : List Element → List String
  | [] => []
  | .content _ rs :: es => rs ++ bodyRefs es
  | _ :: es => bodyRefs es

/-- Whether a relationship id resolves to an entry of the package relationship table. -/
def refResolves (p : MergedPackage) (r : String) : Bool :=
  (p.rels.map Prod.fst).contains r

/-- Number of explicit page-break nodes in a body. -/
def pageBreakCount (body : List Element) : Nat :=
  body.countP (· == Element.pageBreak)

/-- The body of a file that parsed, else the empty sequence. -/
def docBody (f : UploadedFile) : List Element :=
  match f.parsed with
  | some d => d.body
  | none => []

/-- One page-break node, then the body of each file, for a run of subsequent files. -/
def breakJoin : List UploadedFile → List Element
  | [] => []
  | f :: fs => Element.pageBreak :: (docBody f ++ breakJoin fs)

/-- The body shape the spec describes for all-valid inputs: the first body verbatim,
then for each later file one page-break node and that body. -/
def expectedBody : List UploadedFile → List Element
  | [] => []
  | f :: fs => docBody f ++ breakJoin fs

/-! ## Order lemmas for the natural sort comparison -/

theorem natCmp_eq_eq {m n : Nat} : natCmp m n = .eq ↔ m = n := by
  simp only [natCmp]
  split
  · simp only [reduceCtorEq, false_iff]
    omega
  · split
    · simp only [reduceCtorEq, false_iff]
      omega
    · simp only [true_iff]
      omega

theorem natCmp_eq_lt {m n : Nat} : natCmp m n = .lt ↔ m < n := by
  simp only [natCmp]
  split
  · simp only [true_iff]
    omega
  · split
    · simp only [reduceCtorEq, false_iff]
      omega
    · simp only [reduceCtorEq, false_iff]
      omega

theorem natCmp_swap (m n : Nat) : (natCmp m n).swap = natCmp n m := by
  simp only [natCmp]
  by_cases h1 : m < n <;> by_cases h2 : n < m
  · exact absurd h2 (by omega)
  · simp [h1, h2, Ordering.swap]
  · simp [h1, h2, Ordering.swap]
  · simp [h1, h2, Ordering.swap]

theorem natCmp_lt_trans {a b c : Nat} (h1 : natCmp a b = .lt) (h2 : natCmp b c = .lt) :
    natCmp a c = .lt := by
  rw [natCmp_eq_lt] at h1 h2 ⊢
  omega

theorem charCmp_eq_eq {c d : Char} : charCmp c d = .eq ↔ c = d := by
  unfold charCmp
  rw [natCmp_eq_eq]
  constructor
  · intro h
    exact Char.ext (UInt32.toNat.inj h)
  · intro h
    rw [h]

theorem charCmp_swap (c d : Char) : (charCmp c d).swap = charCmp d c :=
  natCmp_swap _ _

theorem charCmp_lt_trans {a b c : Char} (h1 : charCmp a b = .lt) (h2 : charCmp b c = .lt) :
    charCmp a c = .lt :=
  natCmp_lt_trans h1 h2

theorem lexCmp_eq_eq {cmp : α → α → Ordering} (heq : ∀ x y, cmp x y = .eq ↔ x = y) :
    ∀ a b : List α, lexCmp cmp a b = .eq ↔ a = b
  | [], [] => by simp [lexCmp]
  | [], _ :: _ => by simp [lexCmp]
  | _ :: _, [] => by simp [lexCmp]
  | x :: xs, y :: ys => by
    simp only [lexCmp]
    cases h : cmp x y with
    | eq =>
      have hx : x = y := (heq x y).mp h
      subst hx
      rw [lexCmp_eq_eq heq xs ys]
      simp
    | lt =>
      simp only [reduceCtorEq, false_iff, ne_eq]
      intro hc
      rw [List.cons.injEq] at hc
      rw [(heq x y).mpr hc.1] at h
      cases h
    | gt =>
      simp only [reduceCtorEq, false_iff, ne_eq]
      intro hc
      rw [List.cons.injEq] at hc
      rw [(heq x y).mpr hc.1] at h
      cases h

theorem lexCmp_swap {cmp : α → α → Ordering} (hsw : ∀ x y, (cmp x y).swap = cmp y x) :
    ∀ a b : List α, (lexCmp cmp a b).swap = lexCmp cmp b a
  | [], [] => rfl
  | [], _ :: _ => rfl
  | _ :: _, [] => rfl
  | x :: xs, y :: ys => by
    simp only [lexCmp]
    cases h : cmp x y with
    | eq =>
      have h2 : cmp y x = .eq := by
        rw [← hsw x y, h]
        rfl
      rw [h2]
      exact lexCmp_swap hsw xs ys
    | lt =>
      have h2 : cmp y x = .gt := by
        rw [← hsw x y, h]
        rfl
      rw [h2]
      rfl
    | gt =>
      have h2 : cmp y x = .lt := by
        rw [← hsw x y, h]
        rfl
      rw [h2]
      rfl

theorem lexCmp_cons_cons {cmp : α → α → Ordering} {x y : α} {xs ys : List α} :
    lexCmp cmp (x :: xs) (y :: ys) = .lt ↔
      cmp x y = .lt ∨ (cmp x y = .eq ∧ lexCmp cmp xs ys = .lt) := by
  simp only [lexCmp]
  cases h : cmp x y <;> simp

theorem lexCmp_lt_trans {cmp : α → α → Ordering}
    (heq : ∀ x y, cmp x y = .eq ↔ x = y)
    (htr : ∀ {x y z : α}, cmp x y = .lt → cmp y z = .lt → cmp x z = .lt) :
    ∀ {a b c : List α}, lexCmp cmp a b = .lt → lexCmp cmp b c = .lt → lexCmp cmp a c = .lt := by
  intro a
  induction a with
  | nil =>
    intro b c h1 h2
    cases c with
    | nil =>
      exfalso
      cases b <;> simp [lexCmp] at h2
    | cons z zs => simp [lexCmp]
  | cons x xs ih =>
    intro b c h1 h2
    cases b with
    | nil => simp [lexCmp] at h1
    | cons y ys =>
      cases c with
      | nil => simp [lexCmp] at h2
      | cons z zs =>
        rw [lexCmp_cons_cons] at h1 h2 ⊢
        rcases h1 with h1 | ⟨h1e, h1r⟩
        · rcases h2 with h2 | ⟨h2e, h2r⟩
          · exact Or.inl (htr h1 h2)
          · have hy : y = z := (heq y z).mp h2e
            subst hy
            exact Or.inl h1
        · have hx : x = y := (heq x y).mp h1e
          subst hx
          rcases h2 with h2 | ⟨h2e, h2r⟩
          · exact Or.inl h2
          · exact Or.inr ⟨h2e, ih h1r h2r⟩

theorem strCmp_eq_eq {a b : List Char} : strCmp a b = .eq ↔ a = b :=
  lexCmp_eq_eq (fun _ _ => charCmp_eq_eq) a b

theorem strCmp_swap (a b : List Char) : (strCmp a b).swap = strCmp b a :=
  lexCmp_swap charCmp_swap a b

theorem strCmp_lt_trans {a b c : List Char} (h1 : strCmp a b = .lt) (h2 : strCmp b c = .lt) :
    strCmp a c = .lt :=
  lexCmp_lt_trans (fun _ _ => charCmp_eq_eq) (fun h h' => charCmp_lt_trans h h') h1 h2

theorem chunkCmp_eq_eq {a b : Chunk} : chunkCmp a b = .eq ↔ a = b := by
  cases a <;> cases b <;> simp [chunkCmp, strCmp_eq_eq, natCmp_eq_eq]

theorem chunkCmp_swap (a b : Chunk) : (chunkCmp a b).swap = chunkCmp b a := by
  cases a <;> cases b <;>
    first
      | rfl
      | exact strCmp_swap _ _
      | exact natCmp_swap _ _

theorem chunkCmp_lt_trans {a b c : Chunk} (h1 : chunkCmp a b = .lt) (h2 : chunkCmp b c = .lt) :
    chunkCmp a c = .lt := by
  cases a with
  | str x =>
    cases b with
    | str y =>
      cases c with
      | str z => exact strCmp_lt_trans h1 h2
      | num k => exact absurd h2 (by simp [chunkCmp])
    | num j => exact absurd h1 (by simp [chunkCmp])
  | num i =>
    cases b with
    | str y =>
      cases c with
      | str z => rfl
      | num k => exact absurd h2 (by simp [chunkCmp])
    | num j =>
      cases c with
      | str z => rfl
      | num k => exact natCmp_lt_trans h1 h2

theorem keyCmp_eq_eq {a b : List Chunk} : keyCmp a b = .eq ↔ a = b :=
  lexCmp_eq_eq (fun _ _ => chunkCmp_eq_eq) a b

theorem keyCmp_swap (a b : List Chunk) : (keyCmp a b).swap = keyCmp b a :=
  lexCmp_swap chunkCmp_swap a b

theorem keyCmp_lt_trans {a b c : List Chunk} (h1 : keyCmp a b = .lt) (h2 : keyCmp b c = .lt) :
    keyCmp a c = .lt :=
  lexCmp_lt_trans (fun _ _ => chunkCmp_eq_eq) (fun h h' => chunkCmp_lt_trans h h') h1 h2

theorem keyCmp_gt_iff {a b : List Chunk} : keyCmp a b = .gt ↔ keyCmp b a = .lt := by
  constructor
  · intro h
    rw [← keyCmp_swap a b, h]
    rfl
  · intro h
    have := keyCmp_swap b a
    rw [h] at this
    exact this.symm

/-- The comparison the code sorts by is reflexive. -/
theorem natLE_refl (a : String) : natLE a a := by
  unfold natLE natLe
  rw [(keyCmp_eq_eq).mpr rfl]

/-- The comparison the code sorts by is total. -/
theorem natLE_total (a b : String) : natLE a b ∨ natLE b a := by
  unfold natLE natLe
  cases h : keyCmp (natKey a) (natKey b) with
  | lt => left; rfl
  | eq => left; rfl
  | gt =>
    right
    rw [keyCmp_gt_iff.mp h]

/-- The comparison the code sorts by is transitive. -/
theorem natLE_trans {a b c : String} (h1 : natLE a b) (h2 : natLE b c) : natLE a c := by
  unfold natLE natLe at h1 h2 ⊢
  cases hab : keyCmp (natKey a) (natKey b) with
  | gt => rw [hab] at h1; cases h1
  | eq =>
    have : natKey a = natKey b := keyCmp_eq_eq.mp hab
    rw [this]
    exact h2
  | lt =>
    cases hbc : keyCmp (natKey b) (natKey c) with
    | gt => rw [hbc] at h2; cases h2
    | eq =>
      have : natKey b = natKey c := keyCmp_eq_eq.mp hbc
      rw [← this]
      rw [hab]
    | lt =>
      rw [keyCmp_lt_trans hab hbc]

instance : IsTotal String natLE := ⟨natLE_total⟩

instance : IsTrans String natLE := ⟨fun _ _ _ => natLE_trans⟩

/-- Names with equal natsort keys compare at most equal in both directions. -/
theorem natLE_of_key_eq {a b : String} (h : natKey a = natKey b) : natLE a b := by
  unfold natLE natLe
  rw [h, (keyCmp_eq_eq).mpr rfl]

/-! ## Lemmas about the merge loop -/

theorem addBreak_count (st : MergeState) (name : String) :
    (addBreak st name).count = st.count := by
  unfold addBreak
  split
  · rfl
  · split <;> rfl

theorem addBreak_failed (st : MergeState) (name : String) :
    (addBreak st name).failed = st.failed := by
  unfold addBreak
  split
  · rfl
  · split <;> rfl

/-- The step for a file that does not parse leaves the count unchanged and appends
exactly the filename to the failed list. -/
theorem processFile_parse_failed {f : UploadedFile} (st : MergeState) (h : f.parsed = none) :
    (processFile st f).count = st.count ∧
      (processFile st f).failed = st.failed ++ [f.name] := by
  unfold processFile
  rw [h]
  exact ⟨by simp [addBreak_count], by simp [addBreak_failed]⟩

/-- The step for a file that parses increments the count and leaves the failed
list unchanged. -/
theorem processFile_parse_ok {f : UploadedFile} {d : ParsedDoc} (st : MergeState)
    (h : f.parsed = some d) :
    (processFile st f).count = st.count + 1 ∧
      (processFile st f).failed = st.failed := by
  unfold processFile
  rw [h]
  exact ⟨by simp [addBreak_count], by simp [addBreak_failed]⟩

/-- Every loop iteration accounts for its file exactly once: it either increments
the count or appends one name to the failed list. -/
theorem processFile_accounting (st : MergeState) (f : UploadedFile) :
    (processFile st f).count + (processFile st f).failed.length =
      st.count + st.failed.length + 1 := by
  cases h : f.parsed with
  | none =>
    obtain ⟨hc, hf⟩ := processFile_parse_failed st h
    rw [hc, hf]
    simp
    omega
  | some d =>
    obtain ⟨hc, hf⟩ := processFile_parse_ok st h
    rw [hc, hf]
    omega

/-- Over any run of the loop, the count plus the length of the failed list grows by
exactly the number of files processed. -/
theorem foldl_processFile_accounting :
    ∀ (files : List UploadedFile) (st : MergeState),
      (files.foldl processFile st).count + (files.foldl processFile st).failed.length =
        st.count + st.failed.length + files.length
  | [], st => by simp
  | f :: fs, st => by
    rw [List.foldl_cons, foldl_processFile_accounting fs (processFile st f),
      processFile_accounting st f, List.length_cons]
    omega

/-- When every file of a run fails to parse, the count is unchanged and the failed
list gains exactly the names of the files, in order. -/
theorem foldl_processFile_all_fail :
    ∀ (files : List UploadedFile) (st : MergeState),
      (∀ f ∈ files, f.parsed = none) →
      (files.foldl processFile st).count = st.count ∧
        (files.foldl processFile st).failed = st.failed ++ files.map (·.name)
  | [], st, _ => by simp
  | f :: fs, st, hall => by
    rw [List.foldl_cons]
    obtain ⟨hc, hf⟩ := processFile_parse_failed st (hall f (by simp))
    obtain ⟨ihc, ihf⟩ :=
      foldl_processFile_all_fail fs (processFile st f) (fun g hg => hall g (by simp [hg]))
    refine ⟨by rw [ihc, hc], ?_⟩
    rw [ihf, hf, List.map_cons, List.append_assoc]
    rfl

/-- When every file of a run parses, starting from a state past its first file with
an empty failed list, the loop appends one page break and the body of each file, in
order, and counts every file. -/
theorem foldl_processFile_all_ok :
    ∀ (files : List UploadedFile) (st : MergeState),
      st.firstFile = false → st.failed = [] →
      (∀ f ∈ files, f.parsed ≠ none) →
      files.foldl processFile st =
        { body := st.body ++ breakJoin files, count := st.count + files.length,
          failed := [], firstFile := false }
  | [], st, hff, hfl, _ => by
    obtain ⟨b, c, fl, ff⟩ := st
    simp only at hff hfl
    subst hff hfl
    simp [breakJoin]
  | f :: fs, st, hff, hfl, hall => by
    rw [List.foldl_cons]
    cases hp : f.parsed with
    | none => exact absurd hp (hall f (by simp))
    | some d =>
      have hstep : processFile st f =
          { body := st.body ++ Element.pageBreak :: d.body, count := st.count + 1,
            failed := [], firstFile := false } := by
        unfold processFile addBreak
        rw [hp, hff, hfl]
        simp
      rw [hstep,
        foldl_processFile_all_ok fs _ rfl rfl (fun g hg => hall g (by simp [hg]))]
      simp only [breakJoin, docBody, hp, MergeState.mk.injEq, List.cons_append,
        List.append_assoc, List.length_cons, and_true]
      exact ⟨trivial, by omega⟩

theorem pageBreakCount_append (a b : List Element) :
    pageBreakCount (a ++ b) = pageBreakCount a + pageBreakCount b :=
  List.countP_append _ _ _

theorem pageBreakCount_eq_zero {l : List Element} (h : Element.pageBreak ∉ l) :
    pageBreakCount l = 0 := by
  unfold pageBreakCount
  rw [List.countP_eq_zero]
  intro a ha
  simp only [beq_iff_eq]
  intro he
  exact h (he ▸ ha)

theorem pageBreakCount_breakJoin :
    ∀ {fs : List UploadedFile}, (∀ f ∈ fs, Element.pageBreak ∉ docBody f) →
      pageBreakCount (breakJoin fs) = fs.length
  | [], _ => rfl
  | f :: fs, h => by
    have hsplit : breakJoin (f :: fs) =
        [Element.pageBreak] ++ (docBody f ++ breakJoin fs) := rfl
    rw [hsplit, pageBreakCount_append, pageBreakCount_append,
      pageBreakCount_eq_zero (h f (by simp)),
      pageBreakCount_breakJoin (fun g hg => h g (by simp [hg]))]
    simp [pageBreakCount]
    omega

/-! ## Concrete inputs used by the evaluations and witnesses -/

/-- A document with one ordinary content node and its section terminator. -/
def docA : ParsedDoc := ⟨[.content 1 [], .sectPr 1], [], []⟩

/-- A second such document, from a different source. -/
def docC : ParsedDoc := ⟨[.content 3 [], .sectPr 3], [], []⟩

/-- A document whose body references relationship id rId4, with the relationship
entry targeting a media part and that media part present in the source package. -/
def docImg1 : ParsedDoc :=
  ⟨[.content 1 ["rId4"]], [("rId4", "media/image1.png")], [("media/image1.png", [7, 7, 7])]⟩

/-- A second document claiming the same relationship id and carrying a media part
byte-identical to the one of docImg1. -/
def docImg2 : ParsedDoc :=
  ⟨[.content 2 ["rId4"]], [("rId4", "media/image1.png")], [("media/image1.png", [7, 7, 7])]⟩

def fileA : UploadedFile := ⟨"file1.docx", some docA⟩

/-- A corrupt file: Document() raises on it. -/
def fileB : UploadedFile := ⟨"file2.docx", none⟩

def fileC : UploadedFile := ⟨"file3.docx", some docC⟩

/-- A second corrupt file. -/
def fileX : UploadedFile := ⟨"file4.docx", none⟩

def fileImg1 : UploadedFile := ⟨"img1.docx", some docImg1⟩

def fileImg2 : UploadedFile := ⟨"img2.docx", some docImg2⟩

/-- The body the code produces when merging fileA then fileC. -/
def bodyAC : List Element :=
  [Element.content 1 [], Element.sectPr 1, Element.pageBreak,
   Element.content 3 [], Element.sectPr 3]

/-! ## Claim theorems -/

/-- C3: when every input item fails to parse, the merge returns no output at all,
a count of zero, and only the list of the failed item names; no partial package is
produced since the output field is empty. -/
theorem C3_all_corrupt_no_output (files : List UploadedFile)
    (h : ∀ f ∈ files, f.parsed = none) :
    (merge_word_documents_from_streams files).output = none ∧
    (merge_word_documents_from_streams files).count = 0 ∧
    (merge_word_documents_from_streams files).failed = files.map (·.name) := by
  cases files with
  | nil => exact ⟨rfl, rfl, rfl⟩
  | cons f fs =>
    obtain ⟨hc, hf⟩ := foldl_processFile_all_fail (f :: fs)
      { body := [], count := 0, failed := [], firstFile := true } h
    simp only [merge_word_documents_from_streams, List.isEmpty_cons, Bool.false_eq_true,
      if_false, hc, if_true, hf]
    simp

/-- C3 witness: merging two corrupt files returns no output, count zero, and both
names as failed. -/
theorem C3_all_corrupt_no_output_witness :
    (merge_word_documents_from_streams [fileB, fileX]).output = none ∧
    (merge_word_documents_from_streams [fileB, fileX]).count = 0 ∧
    (merge_word_documents_from_streams [fileB, fileX]).failed =
      List.map (·.name) [fileB, fileX] :=
  C3_all_corrupt_no_output [fileB, fileX] (by decide)

/-- C4: when every one of the N input items parses (N at least 1), the merged body
is the body of the first item verbatim followed, for each later item, by exactly one
page-break node and then the body of that item; the count is N and nothing failed;
when no source body contains a page-break node the merged body holds exactly N - 1
page breaks (and therefore no leading one, the body starting with the nodes of the
first item). -/
theorem C4_all_valid_body_structure (files : List UploadedFile)
    (hne : files ≠ [])
    (hok : ∀ f ∈ files, f.parsed ≠ none) :
    (merge_word_documents_from_streams files).output = some (save (expectedBody files)) ∧
    (merge_word_documents_from_streams files).count = files.length ∧
    (merge_word_documents_from_streams files).failed = [] ∧
    ((∀ f ∈ files, Element.pageBreak ∉ docBody f) →
      pageBreakCount (expectedBody files) = files.length - 1) := by
  cases files with
  | nil => exact absurd rfl hne
  | cons f fs =>
    cases hp : f.parsed with
    | none => exact absurd hp (hok f (by simp))
    | some d =>
      have hstep : processFile { body := [], count := 0, failed := [], firstFile := true } f =
          { body := d.body, count := 1, failed := [], firstFile := false } := by
        unfold processFile addBreak
        rw [hp]
        simp
      have hfold := foldl_processFile_all_ok fs
        { body := d.body, count := 1, failed := [], firstFile := false } rfl rfl
        (fun g hg => hok g (by simp [hg]))
      have hmerge : merge_word_documents_from_streams (f :: fs) =
          { output := some (save (d.body ++ breakJoin fs)), count := 1 + fs.length,
            failed := [] } := by
        simp only [merge_word_documents_from_streams, List.isEmpty_cons, Bool.false_eq_true,
          if_false, List.foldl_cons, hstep, hfold]
        rw [if_neg (by omega)]
      have hexp : expectedBody (f :: fs) = d.body ++ breakJoin fs := by
        simp [expectedBody, docBody, hp]
      refine ⟨?_, ?_, ?_, ?_⟩
      · rw [hmerge, hexp]
      · rw [hmerge]
        simp only [List.length_cons]
        omega
      · rw [hmerge]
      · intro hnb
        rw [hexp, pageBreakCount_append]
        have h0 : pageBreakCount d.body = 0 := by
          have hm := hnb f (by simp)
          rw [docBody, hp] at hm
          exact pageBreakCount_eq_zero hm
        rw [h0, pageBreakCount_breakJoin (fun g hg => hnb g (by simp [hg]))]
        simp

/-- C4 witness: merging the two valid files fileA and fileC yields the expected body
with exactly one page break. -/
theorem C4_all_valid_body_structure_witness :
    (merge_word_documents_from_streams [fileA, fileC]).output =
      some (save (expectedBody [fileA, fileC])) ∧
    pageBreakCount (expectedBody [fileA, fileC]) = 1 :=
  ⟨(C4_all_valid_body_structure [fileA, fileC] (by decide) (by decide)).1,
   (C4_all_valid_body_structure [fileA, fileC] (by decide) (by decide)).2.2.2 (by decide)⟩

/-- C9: the empty input returns no output stream, a count of zero and an empty
failed list; the function is total, so no error is raised. -/
theorem C9_empty_input_returns_empty_result :
    merge_word_documents_from_streams [] =
      { output := none, count := 0, failed := [] } := rfl

/-- C10: each iteration of the loop either increments the count or appends exactly
one name to the failed list, and over a whole merge the count plus the length of the
failed list equals the number of input items. -/
theorem C10_every_item_accounted_once (files : List UploadedFile) :
    (∀ (st : MergeState) (f : UploadedFile),
      (processFile st f).count + (processFile st f).failed.length =
        st.count + st.failed.length + 1) ∧
    (merge_word_documents_from_streams files).count +
      (merge_word_documents_from_streams files).failed.length = files.length := by
  refine ⟨processFile_accounting, ?_⟩
  cases files with
  | nil => simp [merge_word_documents_from_streams]
  | cons f fs =>
    have h := foldl_processFile_accounting (f :: fs)
      { body := [], count := 0, failed := [], firstFile := true }
    simp only [merge_word_documents_from_streams, List.isEmpty_cons, Bool.false_eq_true,
      if_false]
    by_cases hz :
      (List.foldl processFile
        { body := [], count := 0, failed := [], firstFile := true } (f :: fs)).count = 0
    · rw [if_pos hz]
      simp only [List.length_cons, List.length_nil] at h ⊢
      omega
    · rw [if_neg hz]
      simp only [List.length_cons, List.length_nil] at h ⊢
      omega

/-- C1: evaluation of the code at the failing input. Merging three items in sorted
order where only the second fails to parse: the failed list holds exactly the name
of item 2 and the count is 2, as the claim says, but the merged body holds TWO
adjacent page-break nodes between the content of item 1 and the content of item 3,
not one: the guard at line 52 tests whether the CURRENT filename is among the
already failed ones, so the failed item still receives a page break for the gap it
occupied. -/
theorem C1_failed_gap_still_gets_break :
    merge_word_documents_from_streams [fileA, fileB, fileC] =
      { output := some (save [Element.content 1 [], Element.sectPr 1, Element.pageBreak,
          Element.pageBreak, Element.content 3 [], Element.sectPr 3]),
        count := 2, failed := ["file2.docx"] } ∧
    pageBreakCount [Element.content 1 [], Element.sectPr 1, Element.pageBreak,
      Element.pageBreak, Element.content 3 [], Element.sectPr 3] = 2 :=
  ⟨rfl, rfl⟩

/-- C2: evaluation of the code at the failing input. The loop copies only body
nodes, so the merged package keeps the relationship table of the blank template:
the id rId4 referenced from the merged body resolves to nothing, its media target
is absent, and no remap of any kind happens; merging two sources that both claim
rId4 leaves both references untouched. -/
theorem C2_body_reference_orphaned :
    (merge_word_documents_from_streams [fileImg1]).output =
      some (save [Element.content 1 ["rId4"]]) ∧
    "rId4" ∈ bodyRefs [Element.content 1 ["rId4"]] ∧
    refResolves (save [Element.content 1 ["rId4"]]) "rId4" = false ∧
    (save [Element.content 1 ["rId4"]]).media = [] ∧
    (merge_word_documents_from_streams [fileImg1, fileImg2]).output =
      some (save [Element.content 1 ["rId4"], Element.pageBreak,
        Element.content 2 ["rId4"]]) :=
  ⟨rfl, by decide, by decide, rfl, rfl⟩

/-- C5: evaluation of the code at the failing input. Merging two valid documents
keeps the section-terminator node of the FIRST (interior) document verbatim in the
merged body, besides the terminator of the last one: nothing is rewritten to an
ordinary boundary node. -/
theorem C5_interior_terminator_not_rewritten :
    merge_word_documents_from_streams [fileA, fileC] =
      { output := some (save bodyAC), count := 2, failed := [] } ∧
    Element.sectPr 1 ∈ bodyAC ∧
    Element.sectPr 3 ∈ bodyAC ∧
    bodyAC.getLast? ≠ some (Element.sectPr 1) :=
  ⟨rfl, by decide, by decide, by decide⟩

/-- C6: evaluation of the code at the failing input. The function takes no
dedupMedia option (its only parameter is the file list), and media parts are not
copied at all: two sources sharing a byte-identical media resource yield a merged
package with ZERO copies of that resource, instead of one copy with dedup enabled
or two with it disabled. -/
theorem C6_media_not_copied_at_all :
    docImg1.media = docImg2.media ∧
    (merge_word_documents_from_streams [fileImg1, fileImg2]).count = 2 ∧
    (merge_word_documents_from_streams [fileImg1, fileImg2]).output =
      some { body := [Element.content 1 ["rId4"], Element.pageBreak,
               Element.content 2 ["rId4"]],
             rels := templateRels, media := [] } :=
  ⟨rfl, rfl, rfl⟩

/-- C7 counterexample: the code has no byte-wise fallback for names whose runs
compare equal case-insensitively. Sorting ["b", "B"]: the spec comparator puts
"B" (byte 66) first, but the code keeps the input order, so the two disagree. -/
theorem C7_no_bytewise_fallback :
    natsorted ["b", "B"] = ["b", "B"] ∧
    specNatSorted ["b", "B"] = ["B", "b"] ∧
    natsorted ["b", "B"] ≠ specNatSorted ["b", "B"] := by
  refine ⟨by decide, by decide, by decide⟩

/-- C7 (amended): the natural sort compares names by splitting into digit and
non-digit runs, non-digit runs case-insensitively, digit runs as integers; names
whose runs all compare equal are ties and keep their input order (stable sort, no
byte-wise fallback). The two example sorts of the claim hold, the output is always
a sorted permutation of the input, and a list of all-tied names is returned
unchanged. -/
theorem C7_natural_sort_contract :
    natsorted ["a2", "a10", "a1"] = ["a1", "a2", "a10"] ∧
    natsorted ["B.docx", "a.docx"] = ["a.docx", "B.docx"] ∧
    (∀ l : List String, (natsorted l).Perm l) ∧
    (∀ l : List String, (natsorted l).Sorted natLE) ∧
    (∀ l : List String, (∀ a ∈ l, ∀ b ∈ l, natKey a = natKey b) → natsorted l = l) := by
  refine ⟨by decide, by decide, ?_, ?_, ?_⟩
  · intro l
    exact List.perm_insertionSort natLE l
  · intro l
    exact List.sorted_insertionSort natLE l
  · intro l h
    exact List.Sorted.insertionSort_eq
      (List.pairwise_of_forall_mem_list fun a ha b hb => natLE_of_key_eq (h a ha b hb))

/-- C7 witness: the tie-stability part of the contract applied at a concrete
input of two names with equal keys, which the sort returns unchanged. -/
theorem C7_natural_sort_contract_witness :
    natsorted ["xB.docx", "xb.docx"] = ["xB.docx", "xb.docx"] :=
  C7_natural_sort_contract.2.2.2.2 ["xB.docx", "xb.docx"] (by decide)

/-- C8 counterexample: the comparison of the code is not antisymmetric, hence not a
total order: "B" and "b" compare at most equal in both directions yet differ. -/
theorem C8_not_antisymmetric :
    natLE "B" "b" ∧ natLE "b" "B" ∧ "B" ≠ "b" := by
  refine ⟨by decide, by decide, by decide⟩

/-- C8 (amended): the comparison of the code is a total preorder: reflexive,
transitive and total, though not antisymmetric; and sorting is idempotent: an
already-sorted list is returned unchanged, and sorting twice equals sorting once. -/
theorem C8_total_preorder_and_idempotent :
    (∀ a : String, natLE a a) ∧
    (∀ a b c : String, natLE a b → natLE b c → natLE a c) ∧
    (∀ a b : String, natLE a b ∨ natLE b a) ∧
    (∀ l : List String, l.Sorted natLE → natsorted l = l) ∧
    (∀ l : List String, natsorted (natsorted l) = natsorted l) := by
  refine ⟨natLE_refl, fun a b c => natLE_trans, natLE_total, ?_, ?_⟩
  · intro l h
    exact List.Sorted.insertionSort_eq h
  · intro l
    exact List.Sorted.insertionSort_eq (List.sorted_insertionSort natLE l)

/-- C8 witness: transitivity and sorted-identity applied at concrete inputs. -/
theorem C8_total_preorder_and_idempotent_witness :
    natLE "a1" "a2" ∧ natLE "a2" "a10" ∧ natLE "a1" "a10" ∧
    natsorted ["a1", "a2", "a10"] = ["a1", "a2", "a10"] :=
  ⟨by decide, by decide,
   C8_total_preorder_and_idempotent.2.1 "a1" "a2" "a10" (by decide) (by decide),
   C8_total_preorder_and_idempotent.2.2.2.1 ["a1", "a2", "a10"] (by decide)⟩

end WordMerge
